import Mathlib

/-!
Verification of the event-extraction scripts of `simul_diagnostic`.

The program under study consists of two small scripts:

* an AWK script (sequential mode) that splits each input record on the
  double-quote character (`FS = "\""`, `RS = "\n"`), fires the pattern rules
  `/"entered link"/` and `/"left link"/` on each record, stores the quoted
  fields `$2, $4, $6, $8` of every matching record in an array `events`
  indexed by an increasing counter `n`, and in its `END` block prints the
  header `time,type,link_id,vehicle` followed by the stored events, formatted
  with `printf "%f,%s,%d,%d\n"`, iterating the array with `for (event in
  events)` (an iteration whose order AWK leaves unspecified);

* a bash script that writes the header once and then pipes the decompressed
  input through a data-parallel dispatcher into per-chunk copies of an inline
  AWK program whose only rule is `/"entered link"/
  {printf "%f,%s,%d,%d\n", $2, $4, $6, $8}`, appending all chunk output after
  the header.

Lines are modelled as lists of characters (a record never contains the
record separator); numbers and formatting follow C `strtod` / `printf`:
finite values as exact rationals, plus the infinite and NaN values that
`strtod` produces for `inf` / `nan` (and hexadecimal) prefixes.
-/

/-- Whitespace test used by the numeric-prefix scan (the character class
skipped by C `strtod`, which AWK uses to coerce a string to a number). -/
def isWs (c : Char) : Bool :=
  c == ' ' || c == '\t' || c == '\n' || c == '\r' || c == '\x0b' || c == '\x0c'

/-- Decimal-digit test for the numeric-prefix scan. -/
def isDig (c : Char) : Bool :=
  c.isDigit

/-- Numeric value of a decimal digit character. -/
def digVal (c : Char) : Nat :=
  c.toNat - 48

/-- The decimal digit character for a value below ten. -/
def digitChar (d : Nat) : Char :=
  Char.ofNat (48 + d)

/-- Value of a string of decimal digits, most significant first (the way
`strtod` accumulates the integer and fraction digit runs). -/
def digitsVal (ds : List Char) : Nat :=
  ds.foldl (fun a c => 10 * a + digVal c) 0

/-- Substring search: `containsSeq pat l` holds when `pat` occurs
contiguously inside `l`.  The two AWK pattern rules `/"entered link"/` and
`/"left link"/` are literal regular expressions, so matching a record is
exactly substring search for the quoted pattern text. -/
def containsSeq : List Char → List Char → Bool
  | pat, [] => pat.isPrefixOf []
  | pat, c :: t => pat.isPrefixOf (c :: t) || containsSeq pat t

/-- The record matches the AWK rule `/"entered link"/`. -/
def matchEntered (l : List Char) : Bool :=
  containsSeq "\"entered link\"".data l

/-- The record matches the AWK rule `/"left link"/`. -/
def matchLeft (l : List Char) : Bool :=
  containsSeq "\"left link\"".data l

/-- AWK field access `$i` for a record `l` under `FS = "\""`: the record is
split on the double-quote character and fields are numbered from 1; a field
past the last one is the empty string, as in AWK. -/
def field (l : List Char) (i : Nat) : List Char :=
  (List.splitOn '"' l).getD (i - 1) []

/-- Hexadecimal-digit test, for the `0x` forms `strtod` accepts. -/
def isHexDig (c : Char) : Bool :=
  c.isDigit || (c.val ≥ 97 && c.val ≤ 102) || (c.val ≥ 65 && c.val ≤ 70)

/-- Numeric value of a hexadecimal digit character. -/
def hexVal (c : Char) : Nat :=
  if c.isDigit then c.toNat - 48
  else if c.val ≥ 97 then c.toNat - 87
  else c.toNat - 55

/-- Value of a string of hexadecimal digits, most significant first. -/
def hexDigitsVal (ds : List Char) : Nat :=
  ds.foldl (fun a c => 16 * a + hexVal c) 0

/-- Case-insensitive prefix test (the pattern is given in lower case), for
the `inf` / `infinity` / `nan` forms `strtod` accepts in any case. -/
def startsCI : List Char → List Char → Bool
  | [], _ => true
  | _ :: _, [] => false
  | p :: ps, c :: cs => (c.toLower == p) && startsCI ps cs

/-- A number as AWK's `strtod`-based string coercion produces it: a finite
exact rational (sign, numerator, denominator), or one of the IEEE special
values — an infinity or a NaN, each with a sign. -/
inductive AwkNum where
  | finite (neg : Bool) (num den : Nat)
  | inf (neg : Bool)
  | nan (neg : Bool)
deriving DecidableEq

/-- Decimal branch of the `strtod` prefix parse (after sign removal): a run
of integer digits, an optional fraction after a decimal point, and an
optional power-of-ten exponent; `none` when no mantissa digit is found. -/
def parseDec (neg : Bool) (r : List Char) : Option AwkNum :=
  let ip := r.takeWhile isDig
  let s3 := r.dropWhile isDig
  let q :=
    match s3 with
    | '.' :: t => (t.takeWhile isDig, t.dropWhile isDig)
    | _ => ([], s3)
  let fp := q.1
  if ip.isEmpty && fp.isEmpty then none
  else
    let n0 := digitsVal ip * 10 ^ fp.length + digitsVal fp
    let d0 := 10 ^ fp.length
    let e :=
      match q.2 with
      | 'e' :: rest | 'E' :: rest =>
        match rest with
        | '-' :: t => (false, t.takeWhile isDig)
        | '+' :: t => (true, t.takeWhile isDig)
        | t => (true, t.takeWhile isDig)
      | _ => (true, ([] : List Char))
    if e.2.isEmpty then some (AwkNum.finite neg n0 d0)
    else if e.1 then some (AwkNum.finite neg (n0 * 10 ^ digitsVal e.2) d0)
    else some (AwkNum.finite neg n0 (d0 * 10 ^ digitsVal e.2))

/-- Hexadecimal branch of the `strtod` prefix parse: what follows `0x` is a
run of hex digits, an optional hex fraction after a point, and an optional
power-of-two `p` exponent (with decimal digits); `none` when no mantissa
hex digit is found. -/
def parseHex (neg : Bool) (t : List Char) : Option AwkNum :=
  let ih := t.takeWhile isHexDig
  let s3 := t.dropWhile isHexDig
  let q :=
    match s3 with
    | '.' :: u => (u.takeWhile isHexDig, u.dropWhile isHexDig)
    | _ => ([], s3)
  let fh := q.1
  if ih.isEmpty && fh.isEmpty then none
  else
    let n0 := hexDigitsVal ih * 16 ^ fh.length + hexDigitsVal fh
    let d0 := 16 ^ fh.length
    let e :=
      match q.2 with
      | 'p' :: rest | 'P' :: rest =>
        match rest with
        | '-' :: u => (false, u.takeWhile isDig)
        | '+' :: u => (true, u.takeWhile isDig)
        | u => (true, u.takeWhile isDig)
      | _ => (true, ([] : List Char))
    if e.2.isEmpty then some (AwkNum.finite neg n0 d0)
    else if e.1 then some (AwkNum.finite neg (n0 * 2 ^ digitsVal e.2) d0)
    else some (AwkNum.finite neg n0 (d0 * 2 ^ digitsVal e.2))

/-- After a `0x` / `0X` opener, `strtod` takes the hexadecimal form when it
has at least one mantissa digit and otherwise backs up and parses the
leading `0` as a decimal number; `t` is the text after the opener and `r`
the text from the `0` on. -/
def hexOr (neg : Bool) (t r : List Char) : Option AwkNum :=
  match parseHex neg t with
  | some v => some v
  | none => parseDec neg r

/-- Numeric prefix of a string in the sense of C `strtod`, which is how AWK
converts the string fields given to `%f` and `%d` to numbers: optional
whitespace, an optional sign, then either a case-insensitive `inf` or `nan`
form (yielding the IEEE special values), a hexadecimal `0x` form, or a
decimal mantissa with optional fraction and exponent.  Returns `none` when
nothing numeric is found (no conversion: AWK then uses the value 0).
Finite values are exact rationals; the IEEE-double rounding of the
reference implementation agrees with this on the short decimal literals at
issue. -/
def parseNum (s : List Char) : Option AwkNum :=
  let s1 := s.dropWhile isWs
  let p :=
    match s1 with
    | '-' :: t => (true, t)
    | '+' :: t => (false, t)
    | _ => (false, s1)
  let neg := p.1
  let r := p.2
  if startsCI "inf".data r then some (AwkNum.inf neg)
  else if startsCI "nan".data r then some (AwkNum.nan neg)
  else
    match r with
    | '0' :: 'x' :: t => hexOr neg t r
    | '0' :: 'X' :: t => hexOr neg t r
    | _ => parseDec neg r

/-- Decimal digits of `n`, most significant first, by repeated division;
the first argument is structural fuel (`n` itself suffices). -/
def natStrAux : Nat → Nat → List Char
  | 0, _ => []
  | _ + 1, 0 => []
  | fuel + 1, n + 1 => natStrAux fuel ((n + 1) / 10) ++ [digitChar ((n + 1) % 10)]

/-- Decimal rendering of a natural number, as `printf` renders the integer
part of a nonnegative value. -/
def natStr (n : Nat) : List Char :=
  if n = 0 then ['0'] else natStrAux n n

/-- The six zero-padded fraction digits of `r < 10^6`, as `printf "%f"`
renders the fractional part. -/
def frac6 (r : Nat) : List Char :=
  [digitChar (r / 100000 % 10), digitChar (r / 10000 % 10),
   digitChar (r / 1000 % 10), digitChar (r / 100 % 10),
   digitChar (r / 10 % 10), digitChar (r % 10)]

/-- Rendering of a parsed value by `printf "%f"`: sign, integer part, a
point, and exactly six fraction digits; the magnitude is rounded to six
decimal places (the inputs at issue are exact at six places, so no
round-to-nearest tie arises). -/
def fmtF (v : Bool × Nat × Nat) : List Char :=
  let m := (v.2.1 * 1000000 * 2 + v.2.2) / (2 * v.2.2)
  (if v.1 then ['-'] else []) ++ natStr (m / 1000000) ++ '.' :: frac6 (m % 1000000)

/-- Rendering of a parsed value by `printf "%d"`: the value truncated
toward zero, with a sign only when the truncated magnitude is nonzero
(C integer conversion of the double). -/
def fmtD (v : Bool × Nat × Nat) : List Char :=
  if v.1 && (v.2.1 / v.2.2 != 0) then '-' :: natStr (v.2.1 / v.2.2)
  else natStr (v.2.1 / v.2.2)

/-- AWK's `%f` conversion of a string field: numeric coercion (value 0
when no numeric prefix exists) followed by fixed-point rendering; the IEEE
special values render as `inf` / `nan` with their sign, as C `printf`
prints them (verified for the mawk build the bash variant's `awk` resolves
to, and matching gawk's rendering of the sign-prefixed forms). -/
def awkToF (s : List Char) : List Char :=
  match parseNum s with
  | none => fmtF (false, 0, 1)
  | some (AwkNum.finite neg n d) => fmtF (neg, n, d)
  | some (AwkNum.inf neg) => if neg then "-inf".data else "inf".data
  | some (AwkNum.nan neg) => if neg then "-nan".data else "nan".data

/-- AWK's `%d` conversion of a string field: numeric coercion (value 0
when no numeric prefix exists) followed by integer rendering.  Converting
an infinity or NaN double to an integer is implementation-defined in C;
the strings below are the renderings observed from the mawk build the bash
variant's `awk` resolves to (`2147483647` for positive infinity,
`-2147483647` for negative infinity and for NaN of either sign); other
implementations differ, and no theorem relies on these strings. -/
def awkToD (s : List Char) : List Char :=
  match parseNum s with
  | none => fmtD (false, 0, 1)
  | some (AwkNum.finite neg n d) => fmtD (neg, n, d)
  | some (AwkNum.inf neg) => if neg then "-2147483647".data else "2147483647".data
  | some (AwkNum.nan _) => "-2147483647".data

/-- The output row `printf "%f,%s,%d,%d\n", $2, $4, $6, $8` produces for a
record: both scripts build their data rows exactly this way. -/
def mkRow (l : List Char) : List Char :=
  awkToF (field l 2) ++ ',' :: (field l 4 ++ ',' :: (awkToD (field l 6) ++ ',' :: awkToD (field l 8)))

/-- Rows the sequential AWK script stores for one record: the rule
`/"entered link"/` appends an event, then the rule `/"left link"/` appends
another; a record matching both rules is stored twice. -/
def seqLineRows (l : List Char) : List (List Char) :=
  (if matchEntered l then [mkRow l] else []) ++ (if matchLeft l then [mkRow l] else [])

/-- Rows the inline AWK program of the bash script prints for one record:
its only rule is `/"entered link"/`. -/
def parLineRows (l : List Char) : List (List Char) :=
  if matchEntered l then [mkRow l] else []

/-- The event array the sequential script has built when `END` runs, in
index order `1 .. n-1` (each matching record appends at the next index). -/
def seqEvents (input : List (List Char)) : List (List Char) :=
  (input.map seqLineRows).flatten

/-- Output of one chunk worker of the bash script: the inline AWK program
applied record by record, in chunk order. -/
def parWorker (chunk : List (List Char)) : List (List Char) :=
  (chunk.map parLineRows).flatten

/-- The header row, printed by `print` in the `END` block of the sequential
script and by `echo` in the bash script. -/
def headerLine : List Char :=
  "time,type,link_id,vehicle".data

/-- Number of pattern rules a record fires (0, 1 or 2). -/
def lineHits (l : List Char) : Nat :=
  (if matchEntered l then 1 else 0) + (if matchLeft l then 1 else 0)

/-- Shape check: a nonempty digit run, a point, then exactly six digits. -/
def isUDec6 (t : List Char) : Bool :=
  match t.dropWhile isDig with
  | '.' :: fs => !(t.takeWhile isDig).isEmpty && fs.length == 6 && fs.all isDig
  | _ => false

/-- Well-formed fixed-point numeral with six fraction digits, optionally
negated. -/
def isDecimal6 (s : List Char) : Bool :=
  isUDec6 s ||
    (match s with
     | '-' :: t => isUDec6 t
     | _ => false)

/-- Shape check: a nonempty run of digits. -/
def isUInt (t : List Char) : Bool :=
  !t.isEmpty && t.all isDig

/-- Well-formed integer numeral, optionally negated. -/
def isIntStr (s : List Char) : Bool :=
  isUInt s ||
    (match s with
     | '-' :: t => isUInt t
     | _ => false)

/-- Exit status of the `echo "…" > $2` stage of the bash script: 0 when the
output path is writable, 1 when the redirection fails. -/
def echoStat (outWritable : Bool) : Nat :=
  if outWritable then 0 else 1

/-- Exit status of `zcat $1`: 0 when the input path is readable, 1 when not. -/
def zcatStat (inReadable : Bool) : Nat :=
  if inReadable then 0 else 1

/-- Exit status of the dispatcher stage: it exits with the number of failed
jobs, and the per-chunk AWK jobs always succeed (on an unreadable input it
receives an empty stream and runs no job), so this is 0. -/
def dispatchStat : Nat :=
  0

/-- Exit status of the pipeline `zcat $1 | … >> $2`: under shell semantics a
pipeline reports the status of its last command, so the `zcat` status is
computed and then discarded. -/
def pipeStat (inReadable : Bool) : Nat :=
  (fun _zs ps => ps) (zcatStat inReadable) dispatchStat

/-- Exit status of the whole bash script `echo … > $2 && zcat $1 | … >> $2`:
the `&&` chain runs the pipeline only when the `echo` stage succeeded, and
the script's status is that of the last command run. -/
def scriptStat (outWritable inReadable : Bool) : Nat :=
  if echoStat outWritable = 0 then pipeStat inReadable else echoStat outWritable

/-- A list is a prefix of itself followed by anything. -/
theorem isPrefixOf_self_append (p v : List Char) : p.isPrefixOf (p ++ v) = true := by
  induction p with
  | nil => simp [List.isPrefixOf]
  | cons a as ih => simp [List.isPrefixOf, ih]

/-- Substring search succeeds on any explicit occurrence. -/
theorem containsSeq_spec (u p v : List Char) : containsSeq p (u ++ p ++ v) = true := by
  induction u with
  | nil =>
    cases p with
    | nil => cases v <;> simp [containsSeq, List.isPrefixOf]
    | cons a as => simp [containsSeq, isPrefixOf_self_append]
  | cons c t ih =>
    have hstep : (c :: t) ++ p ++ v = c :: (t ++ p ++ v) := by simp
    rw [hstep]
    show (p.isPrefixOf (c :: (t ++ p ++ v)) || containsSeq p (t ++ p ++ v)) = true
    rw [ih, Bool.or_true]

/-- Digit characters pass the digit test. -/
theorem digitChar_isDig : ∀ d, d < 10 → isDig (digitChar d) = true := by decide

/-- Digit characters obtained from a remainder pass the digit test. -/
theorem isDig_mod10 (m : Nat) : isDig (digitChar (m % 10)) = true :=
  digitChar_isDig _ (Nat.mod_lt _ (by decide))

/-- All characters produced by the digit-extraction loop are digits. -/
theorem natStrAux_all_digits : ∀ fuel n, (natStrAux fuel n).all isDig = true := by
  intro fuel
  induction fuel with
  | zero => intro n; rfl
  | succ f ih =>
    intro n
    cases n with
    | zero => rfl
    | succ m => simp [natStrAux, List.all_append, ih, isDig_mod10]

/-- All characters of a rendered natural number are digits. -/
theorem natStr_all_digits (n : Nat) : (natStr n).all isDig = true := by
  unfold natStr
  split
  · decide
  · exact natStrAux_all_digits n n

/-- A rendered natural number is never the empty string. -/
theorem natStr_ne_nil (n : Nat) : natStr n ≠ [] := by
  unfold natStr
  split
  · simp
  · rename_i h
    cases n with
    | zero => exact absurd rfl h
    | succ m => simp [natStrAux]

/-- The fraction block always consists of digits. -/
theorem frac6_all_digits (r : Nat) : (frac6 r).all isDig = true := by
  simp [frac6, isDig_mod10]

/-- Taking while a predicate holds stops exactly at the first failing
character after a satisfying block. -/
theorem takeWhile_block (p : Char → Bool) :
    ∀ (a : List Char) (c : Char) (b : List Char), a.all p = true → p c = false →
      (a ++ c :: b).takeWhile p = a := by
  intro a
  induction a with
  | nil => intro c b _ hc; simp [List.takeWhile_cons, hc]
  | cons x xs ih =>
    intro c b hall hc
    simp only [List.all_cons, Bool.and_eq_true] at hall
    simp [List.takeWhile_cons, hall.1, ih c b hall.2 hc]

/-- Dropping while a predicate holds stops exactly at the first failing
character after a satisfying block. -/
theorem dropWhile_block (p : Char → Bool) :
    ∀ (a : List Char) (c : Char) (b : List Char), a.all p = true → p c = false →
      (a ++ c :: b).dropWhile p = c :: b := by
  intro a
  induction a with
  | nil => intro c b _ hc; simp [List.dropWhile_cons, hc]
  | cons x xs ih =>
    intro c b hall hc
    simp only [List.all_cons, Bool.and_eq_true] at hall
    simp [List.dropWhile_cons, hall.1, ih c b hall.2 hc]

/-- The unsigned part of any `%f` rendering is a well-formed numeral. -/
theorem isUDec6_natStr_frac6 (q r : Nat) : isUDec6 (natStr q ++ '.' :: frac6 r) = true := by
  unfold isUDec6
  rw [dropWhile_block isDig (natStr q) '.' (frac6 r) (natStr_all_digits q) (by decide),
    takeWhile_block isDig (natStr q) '.' (frac6 r) (natStr_all_digits q) (by decide)]
  simp [frac6, isDig_mod10, natStr_ne_nil q]

/-- Any `%f` rendering is a well-formed fixed-point numeral with six
fraction digits. -/
theorem isDecimal6_fmtF (v : Bool × Nat × Nat) : isDecimal6 (fmtF v) = true := by
  obtain ⟨neg, n, d⟩ := v
  cases neg with
  | false =>
    have h := isUDec6_natStr_frac6 ((n * 1000000 * 2 + d) / (2 * d) / 1000000)
      ((n * 1000000 * 2 + d) / (2 * d) % 1000000)
    simp [fmtF, isDecimal6, h]
  | true =>
    have h := isUDec6_natStr_frac6 ((n * 1000000 * 2 + d) / (2 * d) / 1000000)
      ((n * 1000000 * 2 + d) / (2 * d) % 1000000)
    simp [fmtF, isDecimal6, h]

/-- Any `%d` rendering is a well-formed integer numeral. -/
theorem isIntStr_fmtD (v : Bool × Nat × Nat) : isIntStr (fmtD v) = true := by
  obtain ⟨neg, n, d⟩ := v
  unfold fmtD
  split
  · simp [isIntStr, isUInt, natStr_all_digits, natStr_ne_nil]
  · simp [isIntStr, isUInt, natStr_all_digits, natStr_ne_nil]

/-- The first character of a `%f` rendering is a sign or a digit, so a data
row can never coincide with the header row. -/
theorem fmtF_append_ne_headerLine (v : Bool × Nat × Nat) (rest : List Char) :
    fmtF v ++ rest ≠ headerLine := by
  obtain ⟨neg, n, d⟩ := v
  have hhead : headerLine = 't' :: "ime,type,link_id,vehicle".data := by decide
  show ((if neg then ['-'] else []) ++
      natStr ((n * 1000000 * 2 + d) / (2 * d) / 1000000) ++
      '.' :: frac6 ((n * 1000000 * 2 + d) / (2 * d) % 1000000)) ++ rest ≠ headerLine
  obtain ⟨c, cs, hc⟩ : ∃ c cs,
      natStr ((n * 1000000 * 2 + d) / (2 * d) / 1000000) = c :: cs := by
    cases h : natStr ((n * 1000000 * 2 + d) / (2 * d) / 1000000) with
    | nil => exact absurd h (natStr_ne_nil _)
    | cons c cs => exact ⟨c, cs, rfl⟩
  have hdig : isDig c = true := by
    have hall := natStr_all_digits ((n * 1000000 * 2 + d) / (2 * d) / 1000000)
    rw [hc] at hall
    simp only [List.all_cons, Bool.and_eq_true] at hall
    exact hall.1
  rw [hc, hhead]
  cases neg with
  | true =>
    intro h
    simp only [if_pos, List.cons_append, List.append_assoc] at h
    have hmt : '-' = 't' := List.head_eq_of_cons_eq h
    exact absurd hmt (by decide)
  | false =>
    intro h
    simp only [if_neg, List.nil_append, List.cons_append, List.append_assoc] at h
    have hct : c = 't' := List.head_eq_of_cons_eq h
    rw [hct] at hdig
    exact absurd hdig (by decide)

/-- A list beginning with a character other than `t` is not the header. -/
theorem ne_headerLine_of_head (c : Char) (cs : List Char) (hc : c ≠ 't') :
    c :: cs ≠ headerLine := by
  intro h
  have hh : headerLine = 't' :: "ime,type,link_id,vehicle".data := by decide
  rw [hh] at h
  exact hc (List.head_eq_of_cons_eq h)

/-- The `%f` column of a data row starts with a sign, a digit, or the
first letter of `inf` / `nan`, never with `t`, so nothing it heads equals
the header. -/
theorem awkToF_append_ne_headerLine (s rest : List Char) :
    awkToF s ++ rest ≠ headerLine := by
  unfold awkToF
  cases hp : parseNum s with
  | none => exact fmtF_append_ne_headerLine (false, 0, 1) rest
  | some v =>
    cases v with
    | finite neg n d => exact fmtF_append_ne_headerLine (neg, n, d) rest
    | inf neg =>
      cases neg with
      | false => exact ne_headerLine_of_head 'i' ("nf".data ++ rest) (by decide)
      | true => exact ne_headerLine_of_head '-' ("inf".data ++ rest) (by decide)
    | nan neg =>
      cases neg with
      | false => exact ne_headerLine_of_head 'n' ("an".data ++ rest) (by decide)
      | true => exact ne_headerLine_of_head '-' ("nan".data ++ rest) (by decide)

/-- A data row of either script is never the header row. -/
theorem mkRow_ne_headerLine (l : List Char) : mkRow l ≠ headerLine := by
  unfold mkRow
  exact awkToF_append_ne_headerLine _ _

/-- Every row stored for one record by the sequential script is the record's
formatted row. -/
theorem mem_seqLineRows {r l : List Char} (h : r ∈ seqLineRows l) : r = mkRow l := by
  cases hE : matchEntered l <;> cases hL : matchLeft l <;>
    simp_all [seqLineRows, hE, hL]

/-- Every row the inline worker prints for one record is the record's
formatted row. -/
theorem mem_parLineRows {r l : List Char} (h : r ∈ parLineRows l) : r = mkRow l := by
  cases hE : matchEntered l <;> simp_all [parLineRows, hE]

/-- Every stored event of the sequential script is a formatted row of some
record. -/
theorem mem_seqEvents {r : List Char} {input : List (List Char)}
    (h : r ∈ seqEvents input) : ∃ l, r = mkRow l := by
  unfold seqEvents at h
  rw [List.mem_flatten] at h
  obtain ⟨rows, hrows, hr⟩ := h
  rw [List.mem_map] at hrows
  obtain ⟨l, _, rfl⟩ := hrows
  exact ⟨l, mem_seqLineRows hr⟩

/-- Every row a chunk worker prints is a formatted row of some record. -/
theorem mem_parWorker {r : List Char} {chunk : List (List Char)}
    (h : r ∈ parWorker chunk) : ∃ l, r = mkRow l := by
  unfold parWorker at h
  rw [List.mem_flatten] at h
  obtain ⟨rows, hrows, hr⟩ := h
  rw [List.mem_map] at hrows
  obtain ⟨l, _, rfl⟩ := hrows
  exact ⟨l, mem_parLineRows hr⟩

/-- Concatenation respects permutation of the blocks. -/
theorem perm_flatten {l₁ l₂ : List (List (List Char))} (h : l₁.Perm l₂) :
    l₁.flatten.Perm l₂.flatten := by
  induction h with
  | nil => exact List.Perm.refl _
  | cons x _ ih => simpa [List.flatten_cons] using ih.append_left x
  | swap x y t =>
    simp only [List.flatten_cons]
    rw [← List.append_assoc, ← List.append_assoc]
    exact List.perm_append_comm.append_right _
  | trans _ _ ih1 ih2 => exact ih1.trans ih2

/-- The worker map distributes over concatenation of chunks. -/
theorem parWorker_append (a b : List (List Char)) :
    parWorker (a ++ b) = parWorker a ++ parWorker b := by
  simp [parWorker, List.map_append, List.flatten_append]

/-- Concatenating the per-chunk outputs yields exactly the unsplit run of
the per-line worker. -/
theorem parWorker_flatten (chunks : List (List (List Char))) :
    (chunks.map parWorker).flatten = parWorker chunks.flatten := by
  induction chunks with
  | nil => rfl
  | cons c cs ih =>
    simp only [List.map_cons, List.flatten_cons, ih, parWorker_append]

/-- The sequential store distributes over concatenation of inputs. -/
theorem seqEvents_cons (l : List Char) (t : List (List Char)) :
    seqEvents (l :: t) = seqLineRows l ++ seqEvents t := by
  simp [seqEvents, List.flatten_cons]

/-- The row count of one record equals the number of rules it fires. -/
theorem seqLineRows_length (l : List Char) :
    (seqLineRows l).length = lineHits l := by
  cases hE : matchEntered l <;> cases hL : matchLeft l <;>
    simp [seqLineRows, lineHits, hE, hL]

/-- The stored-event count is the total number of rule firings. -/
theorem seqEvents_length (input : List (List Char)) :
    (seqEvents input).length = (input.map lineHits).sum := by
  induction input with
  | nil => rfl
  | cons l t ih =>
    rw [seqEvents_cons, List.length_append, seqLineRows_length, ih,
      List.map_cons, List.sum_cons]

/-- A record fires at most two rules. -/
theorem lineHits_le_two (l : List Char) : lineHits l ≤ 2 := by
  cases hE : matchEntered l <;> cases hL : matchLeft l <;>
    simp [lineHits, hE, hL]

/-- Total firings are at most twice the record count. -/
theorem sum_lineHits_le_two (input : List (List Char)) :
    (input.map lineHits).sum ≤ 2 * input.length := by
  induction input with
  | nil => simp
  | cons l t ih =>
    have := lineHits_le_two l
    simp only [List.map_cons, List.sum_cons, List.length_cons]
    omega

/-- With at most one firing per record, total firings are at most the
record count. -/
theorem sum_lineHits_le_one (input : List (List Char))
    (h : ∀ l ∈ input, lineHits l ≤ 1) :
    (input.map lineHits).sum ≤ input.length := by
  induction input with
  | nil => simp
  | cons l t ih =>
    have h1 := h l (List.mem_cons_self l t)
    have ht := ih fun x hx => h x (List.mem_cons_of_mem l hx)
    simp only [List.map_cons, List.sum_cons, List.length_cons]
    omega

/-- With at most one firing per record, the totals agree exactly when every
record fires. -/
theorem sum_lineHits_eq_iff (input : List (List Char))
    (h : ∀ l ∈ input, lineHits l ≤ 1) :
    (input.map lineHits).sum = input.length ↔ ∀ l ∈ input, lineHits l = 1 := by
  induction input with
  | nil => simp
  | cons l t ih =>
    have h1 := h l (List.mem_cons_self l t)
    have ht : ∀ x ∈ t, lineHits x ≤ 1 := fun x hx => h x (List.mem_cons_of_mem l hx)
    have hsum := sum_lineHits_le_one t ht
    simp only [List.map_cons, List.sum_cons, List.length_cons, List.forall_mem_cons]
    constructor
    · intro he
      have hl1 : lineHits l = 1 := by omega
      have hs : (t.map lineHits).sum = t.length := by omega
      exact ⟨hl1, (ih ht).mp hs⟩
    · rintro ⟨hl1, hall⟩
      have := (ih ht).mpr hall
      omega

/-- A record that does not fire both rules fires at most one. -/
theorem lineHits_le_one_of_not_both (l : List Char)
    (h : ¬(matchEntered l = true ∧ matchLeft l = true)) : lineHits l ≤ 1 := by
  cases hE : matchEntered l <;> cases hL : matchLeft l <;>
    simp_all [lineHits]

/-- For a record that does not fire both rules, firing exactly once is
matching at least one rule. -/
theorem lineHits_eq_one_iff (l : List Char)
    (h : ¬(matchEntered l = true ∧ matchLeft l = true)) :
    lineHits l = 1 ↔ (matchEntered l = true ∨ matchLeft l = true) := by
  cases hE : matchEntered l <;> cases hL : matchLeft l <;>
    simp_all [lineHits]

/-- C1 (amended): for every input line on which exactly one of the quoted
patterns `"entered link"`, `"left link"` occurs, the sequential script emits
exactly one output row, built from the line's quote-delimited fields 2, 4,
6 and 8 (numeric positions coerced and formatted); the parallel per-line
worker does the same when the matching pattern is `"entered link"` and emits
nothing when it is `"left link"`, since its inline program has no left-link
rule.  The original claim's premise (field 4 in the allow-list) is neither
necessary nor sufficient for a row. -/
theorem c1_matching_line_rows (l : List Char)
    (h : (matchEntered l = true ∧ matchLeft l = false) ∨
      (matchEntered l = false ∧ matchLeft l = true)) :
    seqLineRows l = [mkRow l] ∧
    parLineRows l = (if matchEntered l = true then [mkRow l] else []) := by
  rcases h with ⟨hE, hL⟩ | ⟨hE, hL⟩ <;> simp [seqLineRows, parLineRows, hE, hL]

/-- C1 witness: a well-formed entered-link line fires exactly one rule and
yields its single formatted row in both variants. -/
theorem c1_matching_line_rows_witness :
    ((matchEntered "a\"1\"b\"entered link\"c\"2\"d\"3\"".data = true ∧
      matchLeft "a\"1\"b\"entered link\"c\"2\"d\"3\"".data = false) ∨
     (matchEntered "a\"1\"b\"entered link\"c\"2\"d\"3\"".data = false ∧
      matchLeft "a\"1\"b\"entered link\"c\"2\"d\"3\"".data = true)) ∧
    (seqLineRows "a\"1\"b\"entered link\"c\"2\"d\"3\"".data =
      [mkRow "a\"1\"b\"entered link\"c\"2\"d\"3\"".data] ∧
     parLineRows "a\"1\"b\"entered link\"c\"2\"d\"3\"".data =
      (if matchEntered "a\"1\"b\"entered link\"c\"2\"d\"3\"".data = true
       then [mkRow "a\"1\"b\"entered link\"c\"2\"d\"3\"".data] else [])) :=
  ⟨Or.inl (by decide), c1_matching_line_rows _ (Or.inl (by decide))⟩

/-- C1 counterexample: a line whose field 4 is the allow-listed string
`left link` produces no output row at all in the parallel (bash) variant,
refuting the claim that both variants emit exactly one row for it. -/
theorem c1_counterexample :
    field "a\"1\"b\"left link\"c\"2\"d\"3\"".data 4 = "left link".data ∧
    parLineRows "a\"1\"b\"left link\"c\"2\"d\"3\"".data = [] := by decide

/-- C2 (amended): a row is emitted exactly when one of the literal quoted
patterns occurs as a substring of the line; in particular an occurrence of
`"entered link"` or `"left link"` anywhere in the line (any quote-enclosed
position, not only field 4) forces a row. -/
theorem c2_substring_emission (l : List Char) :
    (seqLineRows l = [] ↔ (matchEntered l = false ∧ matchLeft l = false)) ∧
    (∀ u v : List Char, l = u ++ "\"entered link\"".data ++ v → seqLineRows l ≠ []) ∧
    (∀ u v : List Char, l = u ++ "\"left link\"".data ++ v → seqLineRows l ≠ []) := by
  refine ⟨?_, ?_, ?_⟩
  · cases hE : matchEntered l <;> cases hL : matchLeft l <;> simp [seqLineRows, hE, hL]
  · intro u v huv
    have hE : matchEntered l = true := by
      rw [huv]; exact containsSeq_spec u _ v
    cases hL : matchLeft l <;> simp [seqLineRows, hE, hL]
  · intro u v huv
    have hL : matchLeft l = true := by
      rw [huv]; exact containsSeq_spec u _ v
    cases hE : matchEntered l <;> simp [seqLineRows, hE, hL]

/-- C2 witness: a quoted occurrence of `entered link` away from field 4
forces a row. -/
theorem c2_substring_emission_witness :
    ("a\"1.0\"b\"foo\"c\"entered link\"d\"5\"".data =
      "a\"1.0\"b\"foo\"c".data ++ "\"entered link\"".data ++ "d\"5\"".data) ∧
    seqLineRows "a\"1.0\"b\"foo\"c\"entered link\"d\"5\"".data ≠ [] :=
  ⟨by decide,
    (c2_substring_emission _).2.1 "a\"1.0\"b\"foo\"c".data "d\"5\"".data (by decide)⟩

/-- C2 counterexample: a line whose field 4 is `foo` (not allow-listed)
still produces a row in both variants, because `"entered link"` occurs at a
later quote-delimited position. -/
theorem c2_counterexample :
    field "a\"1.0\"b\"foo\"c\"entered link\"d\"5\"".data 4 ≠ "entered link".data ∧
    field "a\"1.0\"b\"foo\"c\"entered link\"d\"5\"".data 4 ≠ "left link".data ∧
    seqLineRows "a\"1.0\"b\"foo\"c\"entered link\"d\"5\"".data ≠ [] ∧
    parLineRows "a\"1.0\"b\"foo\"c\"entered link\"d\"5\"".data ≠ [] := by decide

/-- C3 (amended): each input line contributes one data row per pattern rule
it fires (0, 1 or 2), so the data-row count is at most twice the input line
count.  When no line fires both rules the original bound holds: data rows
at most input lines, with equality exactly when every line matches a
pattern. -/
theorem c3_row_count (input : List (List Char)) (rows : List (List Char))
    (h : rows.Perm (seqEvents input)) :
    (headerLine :: rows).length - 1 ≤ 2 * input.length ∧
    ((∀ l ∈ input, ¬(matchEntered l = true ∧ matchLeft l = true)) →
      ((headerLine :: rows).length - 1 ≤ input.length ∧
       ((headerLine :: rows).length - 1 = input.length ↔
         ∀ l ∈ input, (matchEntered l = true ∨ matchLeft l = true)))) := by
  have hlen : (headerLine :: rows).length - 1 = (input.map lineHits).sum := by
    simp [List.length_cons, h.length_eq, seqEvents_length]
  rw [hlen]
  refine ⟨sum_lineHits_le_two input, fun hnb => ?_⟩
  have hle1 : ∀ l ∈ input, lineHits l ≤ 1 := fun l hl =>
    lineHits_le_one_of_not_both l (hnb l hl)
  refine ⟨sum_lineHits_le_one input hle1, ?_⟩
  rw [sum_lineHits_eq_iff input hle1]
  constructor
  · intro hall l hl
    exact (lineHits_eq_one_iff l (hnb l hl)).mp (hall l hl)
  · intro hall l hl
    exact (lineHits_eq_one_iff l (hnb l hl)).mpr (hall l hl)

/-- C3 witness: a one-line input firing exactly one rule realizes the bound
and the equality case. -/
theorem c3_row_count_witness :
    (["1.000000,entered link,2,3".data].Perm
      (seqEvents ["a\"1\"b\"entered link\"c\"2\"d\"3\"".data])) ∧
    ((headerLine :: ["1.000000,entered link,2,3".data]).length - 1 ≤
      2 * (["a\"1\"b\"entered link\"c\"2\"d\"3\"".data] : List (List Char)).length ∧
     ((∀ l ∈ (["a\"1\"b\"entered link\"c\"2\"d\"3\"".data] : List (List Char)),
        ¬(matchEntered l = true ∧ matchLeft l = true)) →
       ((headerLine :: ["1.000000,entered link,2,3".data]).length - 1 ≤
         (["a\"1\"b\"entered link\"c\"2\"d\"3\"".data] : List (List Char)).length ∧
        ((headerLine :: ["1.000000,entered link,2,3".data]).length - 1 =
          (["a\"1\"b\"entered link\"c\"2\"d\"3\"".data] : List (List Char)).length ↔
         ∀ l ∈ (["a\"1\"b\"entered link\"c\"2\"d\"3\"".data] : List (List Char)),
           (matchEntered l = true ∨ matchLeft l = true))))) :=
  ⟨by decide, c3_row_count _ _ (by decide)⟩

/-- C3 counterexample: a single line containing both quoted patterns fires
both rules, so one input line yields two data rows and the claimed bound
(data rows at most input lines) fails. -/
theorem c3_counterexample :
    (headerLine :: seqEvents ["t\"1\"a\"entered link\"b\"left link\"c".data]).length - 1 = 2 ∧
    ¬((headerLine :: seqEvents ["t\"1\"a\"entered link\"b\"left link\"c".data]).length - 1 ≤
        (["t\"1\"a\"entered link\"b\"left link\"c".data] : List (List Char)).length) := by
  decide

/-- C4: in both modes the output starts with the header row, contains the
header exactly once (no data row can equal it, since data rows start with a
sign or digit), and no chunk worker of the parallel variant ever emits the
header: it is written only by the orchestrating caller. -/
theorem c4_single_header (input : List (List Char)) (rows : List (List Char))
    (chunks : List (List (List Char))) (outs : List (List (List Char)))
    (hseq : rows.Perm (seqEvents input)) (hchunks : chunks.flatten = input)
    (houts : outs.Perm (chunks.map parWorker)) :
    ((headerLine :: rows).head? = some headerLine ∧
     (headerLine :: rows).count headerLine = 1) ∧
    ((headerLine :: outs.flatten).head? = some headerLine ∧
     (headerLine :: outs.flatten).count headerLine = 1) ∧
    (∀ c, headerLine ∉ parWorker c) := by
  have hne : ∀ c : List (List Char), headerLine ∉ parWorker c := by
    intro c hmem
    obtain ⟨l, hl⟩ := mem_parWorker hmem
    exact mkRow_ne_headerLine l hl.symm
  have hrows0 : rows.count headerLine = 0 := by
    rw [List.count_eq_zero]
    intro hmem
    obtain ⟨l, hl⟩ := mem_seqEvents (hseq.subset hmem)
    exact mkRow_ne_headerLine l hl.symm
  have houts0 : outs.flatten.count headerLine = 0 := by
    rw [List.count_eq_zero]
    intro hmem
    have hperm : outs.flatten.Perm (parWorker input) := by
      rw [← hchunks, ← parWorker_flatten]
      exact perm_flatten houts
    obtain ⟨l, hl⟩ := mem_parWorker (hperm.subset hmem)
    exact mkRow_ne_headerLine l hl.symm
  refine ⟨⟨rfl, ?_⟩, ⟨rfl, ?_⟩, hne⟩
  · rw [List.count_cons_self, hrows0]
  · rw [List.count_cons_self, houts0]

/-- C4 witness: a concrete one-line input in both modes. -/
theorem c4_single_header_witness :
    ((["1.000000,entered link,2,3".data].Perm
       (seqEvents ["a\"1\"b\"entered link\"c\"2\"d\"3\"".data])) ∧
     (([["a\"1\"b\"entered link\"c\"2\"d\"3\"".data]] :
        List (List (List Char))).flatten =
       ["a\"1\"b\"entered link\"c\"2\"d\"3\"".data]) ∧
     ((([["1.000000,entered link,2,3".data]]) : List (List (List Char))).Perm
       (([["a\"1\"b\"entered link\"c\"2\"d\"3\"".data]] :
          List (List (List Char))).map parWorker))) ∧
    (((headerLine :: ["1.000000,entered link,2,3".data]).head? = some headerLine ∧
      (headerLine :: ["1.000000,entered link,2,3".data]).count headerLine = 1) ∧
     ((headerLine :: (([["1.000000,entered link,2,3".data]]) :
         List (List (List Char))).flatten).head? = some headerLine ∧
      (headerLine :: (([["1.000000,entered link,2,3".data]]) :
         List (List (List Char))).flatten).count headerLine = 1) ∧
     (∀ c, headerLine ∉ parWorker c)) :=
  ⟨⟨by decide, by decide, by decide⟩,
    c4_single_header ["a\"1\"b\"entered link\"c\"2\"d\"3\"".data]
      ["1.000000,entered link,2,3".data]
      [["a\"1\"b\"entered link\"c\"2\"d\"3\"".data]]
      [["1.000000,entered link,2,3".data]]
      (by decide) (by decide) (by decide)⟩

/-- C5 counterexample: the claim that sequential output preserves input
order fails, because the `END` block prints the event array in AWK's
unspecified traversal order: for a two-line input the reversed order is
also a traversal of the stored events, and it differs from input order. -/
theorem c5_counterexample :
    ¬(∀ (input rows : List (List Char)), rows.Perm (seqEvents input) →
        rows = seqEvents input) := by
  intro hclaim
  have h := hclaim
    ["a\"1\"b\"entered link\"c\"2\"d\"3\"".data,
     "a\"4\"b\"entered link\"c\"5\"d\"6\"".data]
    ["4.000000,entered link,5,6".data, "1.000000,entered link,2,3".data]
    (by decide)
  exact absurd h (by decide)

/-- C5 (amended): sequential mode guarantees only the multiset of data
rows — the stored events in any traversal order; the row count is the
number of rule firings, but relative input order is not guaranteed. -/
theorem c5_order_unspecified (input : List (List Char)) (rows : List (List Char))
    (h : rows.Perm (seqEvents input)) :
    Multiset.ofList rows = Multiset.ofList (seqEvents input) ∧
    rows.length = (input.map lineHits).sum :=
  ⟨Quotient.sound h, h.length_eq.trans (seqEvents_length input)⟩

/-- C5 witness: a concrete one-line input. -/
theorem c5_order_unspecified_witness :
    (["1.000000,entered link,2,3".data].Perm
      (seqEvents ["a\"1\"b\"entered link\"c\"2\"d\"3\"".data])) ∧
    (Multiset.ofList ["1.000000,entered link,2,3".data] =
      Multiset.ofList (seqEvents ["a\"1\"b\"entered link\"c\"2\"d\"3\"".data]) ∧
     (["1.000000,entered link,2,3".data] : List (List Char)).length =
      ((["a\"1\"b\"entered link\"c\"2\"d\"3\"".data] :
         List (List Char)).map lineHits).sum) :=
  ⟨by decide, c5_order_unspecified _ _ (by decide)⟩

/-- C6 (amended): a malformed line (fewer than the required 8
quote-delimited fields) never aborts the run (processing is total) and
produces no row exactly when neither quoted pattern occurs in it; a
malformed line that still contains a quoted pattern does produce a row,
with the missing fields coerced to the empty string and zero. -/
theorem c6_malformed_lines (l : List Char)
    (h : (List.splitOn '"' l).length < 8) :
    (seqLineRows l = [] ↔ (matchEntered l = false ∧ matchLeft l = false)) ∧
    (parLineRows l = [] ↔ matchEntered l = false) := by
  constructor
  · cases hE : matchEntered l <;> cases hL : matchLeft l <;> simp [seqLineRows, hE, hL]
  · cases hE : matchEntered l <;> simp [parLineRows, hE]

/-- C6 witness: a three-field line with a quoted left-link pattern. -/
theorem c6_malformed_lines_witness :
    ((List.splitOn '"' "x\"left link\"y".data).length < 8) ∧
    ((seqLineRows "x\"left link\"y".data = [] ↔
       (matchEntered "x\"left link\"y".data = false ∧
        matchLeft "x\"left link\"y".data = false)) ∧
     (parLineRows "x\"left link\"y".data = [] ↔
       matchEntered "x\"left link\"y".data = false)) :=
  ⟨by decide, c6_malformed_lines _ (by decide)⟩

/-- C6 counterexample: a malformed line (3 fields, fewer than 8) is not
skipped: both variants emit a row for it, with the absent fields rendered
as empty type and zero numbers. -/
theorem c6_counterexample :
    (List.splitOn '"' "x\"entered link\"y".data).length < 8 ∧
    seqLineRows "x\"entered link\"y".data = ["0.000000,,0,0".data] ∧
    parLineRows "x\"entered link\"y".data = ["0.000000,,0,0".data] := by decide

/-- C7 (amended): the spec's example line must place the values at the
quote-delimited field positions 2, 4, 6, 8; on the line
`x"123.5"y"entered link"z"42"w"7"` both variants produce exactly the row
`123.500000,entered link,42,7`. -/
theorem c7_field_positions :
    seqLineRows "x\"123.5\"y\"entered link\"z\"42\"w\"7\"".data =
      ["123.500000,entered link,42,7".data] ∧
    parLineRows "x\"123.5\"y\"entered link\"z\"42\"w\"7\"".data =
      ["123.500000,entered link,42,7".data] := by decide

/-- C7 counterexample: on the spec's literal example line
`123.5"entered link"42"7"` the quote-delimited fields 2, 4, 6, 8 are
`entered link`, `7` and two missing fields, so the script emits
`0.000000,7,0,0`, not the claimed `123.500000,entered link,42,7`. -/
theorem c7_counterexample :
    seqLineRows "123.5\"entered link\"42\"7\"".data = ["0.000000,7,0,0".data] ∧
    "0.000000,7,0,0".data ≠ "123.500000,entered link,42,7".data := by decide

/-- C8 (amended): the bash tool exits 0 on success and nonzero when the
output path is unwritable (the header redirection fails and the `&&` chain
stops), but it also exits 0 when the input path is unreadable: the failing
status of the decompressor is discarded because a pipeline reports only its
last command's status, and the dispatcher succeeds on an empty stream. -/
theorem c8_exit_status :
    scriptStat true true = 0 ∧ (∀ r : Bool, scriptStat false r = 1) ∧
    scriptStat true false = 0 := by decide

/-- C8 counterexample: with a writable output and an unreadable input the
script exits 0, refuting the claimed nonzero exit status for unreadable
input. -/
theorem c8_counterexample : scriptStat true false = 0 := by decide

/-- C9: partition invariance of the parallel variant.  For any two
line-aligned chunkings of the same input, and any order in which the
per-chunk outputs are concatenated, the multiset of data rows is the same:
each worker is the same stateless per-line filter, so concatenating chunk
outputs is a permutation of the unsplit run. -/
theorem c9_partition_invariance (input : List (List Char))
    (cs₁ cs₂ p₁ p₂ : List (List (List Char)))
    (h₁ : cs₁.flatten = input) (h₂ : cs₂.flatten = input)
    (hp₁ : p₁.Perm (cs₁.map parWorker)) (hp₂ : p₂.Perm (cs₂.map parWorker)) :
    Multiset.ofList p₁.flatten = Multiset.ofList p₂.flatten := by
  have e₁ : p₁.flatten.Perm (parWorker input) := by
    rw [← h₁, ← parWorker_flatten]
    exact perm_flatten hp₁
  have e₂ : p₂.flatten.Perm (parWorker input) := by
    rw [← h₂, ← parWorker_flatten]
    exact perm_flatten hp₂
  exact Quotient.sound (e₁.trans e₂.symm)

/-- C9 witness: a two-line input split into two chunks versus one chunk,
with the chunk outputs concatenated in different orders. -/
theorem c9_partition_invariance_witness :
    ((([["a\"1\"b\"entered link\"c\"2\"d\"3\"".data],
        ["a\"1\"b\"left link\"c\"2\"d\"3\"".data]] :
        List (List (List Char))).flatten =
      ["a\"1\"b\"entered link\"c\"2\"d\"3\"".data,
       "a\"1\"b\"left link\"c\"2\"d\"3\"".data]) ∧
     (([["a\"1\"b\"entered link\"c\"2\"d\"3\"".data,
         "a\"1\"b\"left link\"c\"2\"d\"3\"".data]] :
        List (List (List Char))).flatten =
      ["a\"1\"b\"entered link\"c\"2\"d\"3\"".data,
       "a\"1\"b\"left link\"c\"2\"d\"3\"".data]) ∧
     (([[], ["1.000000,entered link,2,3".data]] :
        List (List (List Char))).Perm
       (([["a\"1\"b\"entered link\"c\"2\"d\"3\"".data],
          ["a\"1\"b\"left link\"c\"2\"d\"3\"".data]] :
          List (List (List Char))).map parWorker)) ∧
     (([["1.000000,entered link,2,3".data]] : List (List (List Char))).Perm
       (([["a\"1\"b\"entered link\"c\"2\"d\"3\"".data,
           "a\"1\"b\"left link\"c\"2\"d\"3\"".data]] :
          List (List (List Char))).map parWorker))) ∧
    Multiset.ofList (([[], ["1.000000,entered link,2,3".data]] :
        List (List (List Char))).flatten) =
      Multiset.ofList (([["1.000000,entered link,2,3".data]] :
        List (List (List Char))).flatten) :=
  ⟨⟨by decide, by decide, by decide, by decide⟩,
    c9_partition_invariance
      ["a\"1\"b\"entered link\"c\"2\"d\"3\"".data,
       "a\"1\"b\"left link\"c\"2\"d\"3\"".data]
      [["a\"1\"b\"entered link\"c\"2\"d\"3\"".data],
       ["a\"1\"b\"left link\"c\"2\"d\"3\"".data]]
      [["a\"1\"b\"entered link\"c\"2\"d\"3\"".data,
        "a\"1\"b\"left link\"c\"2\"d\"3\"".data]]
      [[], ["1.000000,entered link,2,3".data]]
      [["1.000000,entered link,2,3".data]]
      (by decide) (by decide) (by decide) (by decide)⟩

/-- C10 (amended): AWK's numeric coercion never raises an error; a field
with no `strtod`-numeric prefix (no digits and no `inf` / `nan` form,
including a missing field's empty string) is coerced to zero, rendered
`0.000000` by `%f` and `0` by `%d`, and every field coerced to a finite
value renders as well-formed numerals in the numeric columns.  The
original universal claim fails for fields carrying an `inf` / `nan` form,
which convert to the IEEE special values, not to zero. -/
theorem c10_numeric_coercion (s : List Char) :
    (parseNum s = none → awkToF s = "0.000000".data ∧ awkToD s = "0".data) ∧
    (∀ neg n d, parseNum s = some (AwkNum.finite neg n d) →
      isDecimal6 (awkToF s) = true ∧ isIntStr (awkToD s) = true) := by
  constructor
  · intro h
    unfold awkToF awkToD
    rw [h]
    exact ⟨by decide, by decide⟩
  · intro neg n d h
    unfold awkToF awkToD
    rw [h]
    exact ⟨isDecimal6_fmtF (neg, n, d), isIntStr_fmtD (neg, n, d)⟩

/-- C10 witness: the non-numeric field `entered link` is coerced to zero,
and the finite field `123.5` renders as well-formed numerals. -/
theorem c10_numeric_coercion_witness :
    (parseNum "entered link".data = none ∧
     (awkToF "entered link".data = "0.000000".data ∧
      awkToD "entered link".data = "0".data)) ∧
    (parseNum "123.5".data = some (AwkNum.finite false 1235 10) ∧
     (isDecimal6 (awkToF "123.5".data) = true ∧
      isIntStr (awkToD "123.5".data) = true)) :=
  ⟨⟨by decide, (c10_numeric_coercion "entered link".data).1 (by decide)⟩,
   ⟨by decide, (c10_numeric_coercion "123.5".data).2 false 1235 10 (by decide)⟩⟩

/-- C10 counterexample: a matching line whose time field is `+inf` — which
gawk and mawk alike convert to positive infinity and render as `inf` under
`%f` — produces the row `inf,entered link,2,3`: the time column is neither
`0.000000` nor a well-formed fixed-point numeral. -/
theorem c10_counterexample :
    seqLineRows "a\"+inf\"b\"entered link\"c\"2\"d\"3\"".data =
      ["inf,entered link,2,3".data] ∧
    awkToF "+inf".data ≠ "0.000000".data ∧
    isDecimal6 (awkToF "+inf".data) = false := by decide

